import Mathlib

/-!
# Verification of `pastekit` (clipboard-paste normalization)

A shallow embedding of `src/pastekit.js`. Strings are modelled as lists of
byte values (`List Nat`); all the repository's string literals are ASCII, so
a JavaScript string and its UTF-8 byte rendering coincide on every input used
here. Browser built-ins (`atob`, `decodeURIComponent`, `DOMParser`,
`XMLSerializer`) are modelled at the byte level; fallible built-ins are
`Except`-valued so that the source's `try`/`catch` structure is mirrored
faithfully.
-/

/-- Byte rendering of an ASCII string literal (code points; equals UTF-8 for
the ASCII literals used throughout the repository). -/
def bytes (s : String) : List Nat := s.data.map Char.toNat

/-- ASCII lower-casing of one byte, as JavaScript's case-insensitive regex
matching does for the ASCII range. -/
def toLowerByte (b : Nat) : Nat := if 65 ≤ b ∧ b ≤ 90 then b + 32 else b

/-- Case-insensitive prefix stripping: the pattern is stored lower-case and
each input byte is lowered before comparison.  Returns the remainder of the
input after the pattern. -/
def stripPrefixCI : List Nat → List Nat → Option (List Nat)
  | [], s => some s
  | _ :: _, [] => none
  | p :: ps, c :: cs => if toLowerByte c = p then stripPrefixCI ps cs else none

/-- Case-insensitive `startsWith`. -/
def startsWithCI (pat s : List Nat) : Bool := (stripPrefixCI pat s).isSome

/-- Case-insensitive prefix test used by substring search. -/
def isPrefixAtCI : List Nat → List Nat → Bool := startsWithCI

/-- Case-insensitive substring test, modelling `/needle/i.test(hay)` for a
literal needle. -/
def containsSubCI (needle : List Nat) : List Nat → Bool
  | [] => needle.isEmpty
  | c :: t => isPrefixAtCI needle (c :: t) || containsSubCI needle t

/-- JavaScript `String.prototype.trim` restricted to the ASCII whitespace
bytes (tab, LF, VT, FF, CR, space). -/
def isJsSpace (b : Nat) : Bool := b == 9 || b == 10 || b == 11 || b == 12 || b == 13 || b == 32

/-- Model of `s.trim()`. -/
def jsTrim (s : List Nat) : List Nat :=
  ((s.dropWhile isJsSpace).reverse.dropWhile isJsSpace).reverse

/-- JavaScript truthiness of a `string | null` value: `null` and the empty
string are falsy. -/
def jsTruthyOpt : Option (List Nat) → Option (List Nat)
  | some (c :: cs) => some (c :: cs)
  | _ => none

/-! ## Base64 (model of `atob` / `Buffer.from(payload, 'base64')`) -/

/-- The base64 alphabet: index 0–63 to byte. -/
def b64Char (n : Nat) : Nat :=
  if n < 26 then 65 + n
  else if n < 52 then 97 + (n - 26)
  else if n < 62 then 48 + (n - 52)
  else if n = 62 then 43
  else 47

/-- Inverse base64 alphabet lookup. -/
def b64Val (c : Nat) : Option Nat :=
  if 65 ≤ c ∧ c ≤ 90 then some (c - 65)
  else if 97 ≤ c ∧ c ≤ 122 then some (c - 97 + 26)
  else if 48 ≤ c ∧ c ≤ 57 then some (c - 48 + 52)
  else if c = 43 then some 62
  else if c = 47 then some 63
  else none

/-- Standard base64 encoding of a byte sequence, with `=` padding (the
encoding used by the repository's tests to build base64 data URLs). -/
def base64encode : List Nat → List Nat
  | [] => []
  | [a] => [b64Char (a / 4), b64Char ((a % 4) * 16), 61, 61]
  | [a, b] => [b64Char (a / 4), b64Char ((a % 4) * 16 + b / 16), b64Char ((b % 16) * 4), 61]
  | a :: b :: c :: rest =>
    b64Char (a / 4) :: b64Char ((a % 4) * 16 + b / 16) ::
    b64Char ((b % 16) * 4 + c / 64) :: b64Char (c % 64) :: base64encode rest

/-- Base64 decoding; `none` models the `InvalidCharacterError` that `atob`
raises on input it rejects. -/
def base64decode : List Nat → Option (List Nat)
  | [] => some []
  | c1 :: c2 :: c3 :: c4 :: rest => do
    let v1 ← b64Val c1
    let v2 ← b64Val c2
    if c3 = 61 then
      if c4 = 61 ∧ rest = [] then pure [v1 * 4 + v2 / 16] else none
    else do
      let v3 ← b64Val c3
      if c4 = 61 then
        if rest = [] then pure [v1 * 4 + v2 / 16, (v2 % 16) * 16 + v3 / 4] else none
      else do
        let v4 ← b64Val c4
        let tail ← base64decode rest
        pure ([v1 * 4 + v2 / 16, (v2 % 16) * 16 + v3 / 4, (v3 % 4) * 64 + v4] ++ tail)
  | _ => none

/-- `atob` as an `Except`, mirroring that it can throw (caught by
`decodeSvgDataUrl`'s `try`/`catch`). -/
def atobE (s : List Nat) : Except Unit (List Nat) :=
  match base64decode s with
  | some v => Except.ok v
  | none => Except.error ()

/-! ## Percent decoding (model of `decodeURIComponent` / `encodeURIComponent`) -/

/-- The bytes `encodeURIComponent` leaves unescaped:
`A–Z a–z 0–9 - _ . ! ~ * ' ( )`. -/
def isUnreservedByte (b : Nat) : Bool :=
  (48 ≤ b && b ≤ 57) || (65 ≤ b && b ≤ 90) || (97 ≤ b && b ≤ 122) ||
  b == 45 || b == 95 || b == 46 || b == 33 || b == 126 || b == 42 ||
  b == 39 || b == 40 || b == 41

/-- Upper-case hex digit of a value below 16 (as `encodeURIComponent` emits). -/
def hexDigitUpper (x : Nat) : Nat := if x < 10 then 48 + x else 55 + x

/-- Hex digit value (either case accepted, as `decodeURIComponent` does). -/
def hexVal (c : Nat) : Option Nat :=
  if 48 ≤ c ∧ c ≤ 57 then some (c - 48)
  else if 65 ≤ c ∧ c ≤ 70 then some (c - 55)
  else if 97 ≤ c ∧ c ≤ 102 then some (c - 87)
  else none

/-- Model of `encodeURIComponent` at the byte level: unreserved bytes kept,
every other byte escaped as `%XX`. -/
def percentEncode : List Nat → List Nat
  | [] => []
  | b :: t =>
    (if isUnreservedByte b then [b]
     else [37, hexDigitUpper (b / 16), hexDigitUpper (b % 16)]) ++ percentEncode t

/-- Model of `decodeURIComponent` at the byte level: `%XX` escapes decoded,
other bytes copied; `none` on a malformed escape.  (The UTF-8 re-validation
JavaScript additionally performs on escape runs is not modelled; no theorem
below depends on it.) -/
def percentDecode : List Nat → Option (List Nat)
  | [] => some []
  | c :: t =>
    if c = 37 then
      match t with
      | h :: l :: t2 => do
        let x ← hexVal h
        let y ← hexVal l
        let d ← percentDecode t2
        pure ((x * 16 + y) :: d)
      | _ => none
    else (percentDecode t).map (c :: ·)

/-- `decodeURIComponent` as an `Except`, mirroring that it can throw a
`URIError` (caught by `decodeSvgDataUrl`'s `try`/`catch`). -/
def decodeURIComponentE (s : List Nat) : Except Unit (List Nat) :=
  match percentDecode s with
  | some v => Except.ok v
  | none => Except.error ()

/-! ## The SVG data-URL codec (`isSvgDataUrl`, `decodeSvgDataUrl`) -/

/-- The lowered MIME marker `data:image/svg+xml`. -/
def mimeSvg : List Nat := bytes "data:image/svg+xml"

/-- Split a byte string at its first comma; `none` when no comma occurs
(mirrors the mandatory `,` of the regex `^data:image\/svg\+xml(;[^,]*)?,(.*)$`). -/
def splitFirstComma : List Nat → Option (List Nat × List Nat)
  | [] => none
  | c :: t =>
    if c = 44 then some ([], t)
    else (splitFirstComma t).map (fun p => (c :: p.1, p.2))

/-- Whether a byte string contains a line-terminator byte.  In the source's
regex the payload is captured by `(.*)$` without the dot-all flag, so a
payload containing LF or CR cannot match.  (The rarely relevant U+2028/U+2029
line separators are multi-byte in UTF-8 and not modelled.) -/
def hasCrOrLf (s : List Nat) : Bool := s.any (fun b => b == 10 || b == 13)

/-- Model of `dataUrl.match(/^data:image\/svg\+xml(;[^,]*)?,(.*)$/i)`:
returns (parameter segment including its leading `;`, payload), or `none`
when the regex does not match.  The optional group, being `;[^,]*`, must
start with `;`, may not contain a comma, and is followed by the first comma;
the payload may not contain a line terminator. -/
def svgDataUrlMatch (s : List Nat) : Option (List Nat × List Nat) :=
  match stripPrefixCI mimeSvg s with
  | none => none
  | some rest =>
    match rest with
    | [] => none
    | c :: cs =>
      if c = 44 then
        if hasCrOrLf cs then none else some ([], cs)
      else if c = 59 then
        match splitFirstComma cs with
        | none => none
        | some (m, payload) =>
          if hasCrOrLf payload then none else some (59 :: m, payload)
      else none

/-- Model of `isSvgDataUrl`: `/^data:image\/svg\+xml[,;]/i.test(s)`. -/
def isSvgDataUrl (s : List Nat) : Bool :=
  match stripPrefixCI mimeSvg s with
  | some (c :: _) => c == 44 || c == 59
  | _ => false

/-- Body of `decodeSvgDataUrl` before its `try`/`catch`: match the regex,
then base64-decode when any parameter segment matches `;base64` (anywhere,
case-insensitive), else percent-decode.  `Except.error` models an exception
thrown by `atob`/`decodeURIComponent`. -/
def decodeSvgDataUrlE (u : List Nat) : Except Unit (Option (List Nat)) :=
  match svgDataUrlMatch u with
  | none => Except.ok none
  | some (meta, payload) =>
    if containsSubCI (bytes ";base64") meta then (atobE payload).map some
    else (decodeURIComponentE payload).map some

/-- Model of `decodeSvgDataUrl`: the body with its `try`/`catch`, which
converts any thrown error to `null`. -/
def decodeSvgDataUrl (u : List Nat) : Option (List Nat) :=
  match decodeSvgDataUrlE u with
  | Except.ok v => v
  | Except.error _ => none

/-! ## Codec lemmas -/

theorem b64Val_b64Char (n : Nat) (h : n < 64) : b64Val (b64Char n) = some n := by
  unfold b64Char b64Val
  split_ifs <;> simp_all <;> omega

theorem b64Char_ne_pad (n : Nat) : b64Char n ≠ 61 := by
  unfold b64Char
  split_ifs <;> omega

theorem b64Char_ge (n : Nat) : 43 ≤ b64Char n := by
  unfold b64Char
  split_ifs <;> omega

theorem base64decode_encode : ∀ l : List Nat, (∀ b ∈ l, b < 256) →
    base64decode (base64encode l) = some l
  | [], _ => rfl
  | [a], h => by
    have ha : a < 256 := h a (by simp)
    simp [base64encode, base64decode, b64Val_b64Char _ (show a / 4 < 64 by omega),
      b64Val_b64Char _ (show (a % 4) * 16 < 64 by omega)]
    omega
  | [a, b], h => by
    have ha : a < 256 := h a (by simp)
    have hb : b < 256 := h b (by simp)
    simp [base64encode, base64decode, b64Val_b64Char _ (show a / 4 < 64 by omega),
      b64Val_b64Char _ (show (a % 4) * 16 + b / 16 < 64 by omega),
      b64Val_b64Char _ (show (b % 16) * 4 < 64 by omega), b64Char_ne_pad]
    omega
  | a :: b :: c :: rest, h => by
    have ha : a < 256 := h a (by simp)
    have hb : b < 256 := h b (by simp)
    have hc : c < 256 := h c (by simp)
    have ih := base64decode_encode rest (fun x hx => h x (by simp [hx]))
    simp [base64encode, base64decode, b64Val_b64Char _ (show a / 4 < 64 by omega),
      b64Val_b64Char _ (show (a % 4) * 16 + b / 16 < 64 by omega),
      b64Val_b64Char _ (show (b % 16) * 4 + c / 64 < 64 by omega),
      b64Val_b64Char _ (show c % 64 < 64 by omega), b64Char_ne_pad, ih]
    refine ⟨by omega, by omega, by omega⟩

theorem hasCrOrLf_append (xs ys : List Nat) :
    hasCrOrLf (xs ++ ys) = (hasCrOrLf xs || hasCrOrLf ys) := by
  simp [hasCrOrLf]

theorem hasCrOrLf_base64encode : ∀ l : List Nat, hasCrOrLf (base64encode l) = false
  | [] => rfl
  | [a] => by
    have g1 := b64Char_ge (a / 4)
    have g2 := b64Char_ge ((a % 4) * 16)
    simp [base64encode, hasCrOrLf]
    omega
  | [a, b] => by
    have g1 := b64Char_ge (a / 4)
    have g2 := b64Char_ge ((a % 4) * 16 + b / 16)
    have g3 := b64Char_ge ((b % 16) * 4)
    simp [base64encode, hasCrOrLf]
    omega
  | a :: b :: c :: rest => by
    have g1 := b64Char_ge (a / 4)
    have g2 := b64Char_ge ((a % 4) * 16 + b / 16)
    have g3 := b64Char_ge ((b % 16) * 4 + c / 64)
    have g4 := b64Char_ge (c % 64)
    have ih := hasCrOrLf_base64encode rest
    simp [base64encode, hasCrOrLf] at ih ⊢
    exact ⟨by omega, by omega, by omega, by omega, ih⟩

theorem hexVal_hexDigitUpper (x : Nat) (h : x < 16) : hexVal (hexDigitUpper x) = some x := by
  unfold hexDigitUpper hexVal
  split_ifs <;> simp_all <;> omega

theorem isUnreservedByte_ge (b : Nat) (h : isUnreservedByte b = true) : 33 ≤ b := by
  simp [isUnreservedByte] at h
  omega

theorem percentDecode_encode : ∀ l : List Nat, (∀ b ∈ l, b < 256) →
    percentDecode (percentEncode l) = some l
  | [], _ => rfl
  | b :: t, h => by
    have hb : b < 256 := h b (by simp)
    have ih := percentDecode_encode t (fun x hx => h x (by simp [hx]))
    by_cases hu : isUnreservedByte b = true
    · have hb37 : ¬b = 37 := by
        intro he
        subst he
        simp [isUnreservedByte] at hu
      have henc : percentEncode (b :: t) = b :: percentEncode t := by
        simp [percentEncode, hu]
      rw [henc]
      unfold percentDecode
      rw [if_neg hb37, ih]
      rfl
    · have henc : percentEncode (b :: t) =
          37 :: hexDigitUpper (b / 16) :: hexDigitUpper (b % 16) :: percentEncode t := by
        simp [percentEncode, hu]
      rw [henc]
      unfold percentDecode
      rw [if_pos rfl]
      simp [hexVal_hexDigitUpper _ (show b / 16 < 16 by omega),
        hexVal_hexDigitUpper _ (show b % 16 < 16 by omega), ih]
      omega

theorem hexDigitUpper_ge (x : Nat) : 48 ≤ hexDigitUpper x := by
  unfold hexDigitUpper
  split <;> omega

theorem hasCrOrLf_percentEncode : ∀ l : List Nat, hasCrOrLf (percentEncode l) = false
  | [] => rfl
  | b :: t => by
    have ih := hasCrOrLf_percentEncode t
    by_cases hu : isUnreservedByte b = true
    · have hb := isUnreservedByte_ge b hu
      simp only [percentEncode, hu, if_true, List.singleton_append]
      simp [hasCrOrLf] at ih ⊢
      exact ⟨⟨by omega, by omega⟩, ih⟩
    · have h1 := hexDigitUpper_ge (b / 16)
      have h2 := hexDigitUpper_ge (b % 16)
      simp only [percentEncode, hu, if_false, List.cons_append, List.nil_append]
      simp [hasCrOrLf] at ih
      simp [hasCrOrLf]
      exact ⟨⟨by omega, by omega⟩, ⟨by omega, by omega⟩, ih⟩

theorem splitFirstComma_append (m p : List Nat) (h : 44 ∉ m) :
    splitFirstComma (m ++ 44 :: p) = some (m, p) := by
  induction m with
  | nil => simp [splitFirstComma]
  | cons c m' ih =>
    have hc : ¬c = 44 := fun he => h (by simp [he])
    simp [splitFirstComma, hc, ih (fun hm => h (by simp [hm]))]

theorem stripPrefixCI_mime_append (r : List Nat) :
    stripPrefixCI mimeSvg (mimeSvg ++ r) = some r := rfl

theorem containsSubCI_append_left (n ys : List Nat) (xs : List Nat)
    (h : containsSubCI n ys = true) : containsSubCI n (xs ++ ys) = true := by
  induction xs with
  | nil => simpa using h
  | cons x xs' ih => simp [containsSubCI, ih]

/-! ## Shape lemmas for the data-URL regex model -/

theorem svgDataUrlMatch_param (m payload : List Nat) (hm : 44 ∉ m)
    (hp : hasCrOrLf payload = false) :
    svgDataUrlMatch (mimeSvg ++ 59 :: (m ++ 44 :: payload)) = some (59 :: m, payload) := by
  unfold svgDataUrlMatch
  rw [stripPrefixCI_mime_append]
  simp [splitFirstComma_append m payload hm, hp]

theorem svgDataUrlMatch_nometa (payload : List Nat) (hp : hasCrOrLf payload = false) :
    svgDataUrlMatch (mimeSvg ++ 44 :: payload) = some ([], payload) := by
  unfold svgDataUrlMatch
  rw [stripPrefixCI_mime_append]
  simp [hp]

/-- Well-formedness of an interposed parameter segment: either empty or
starting with `;`, and containing no comma (so that the regex's optional
`;[^,]*` group can cover it). -/
def metaOk (extra : List Nat) : Prop :=
  (extra = [] ∨ extra.head? = some 59) ∧ 44 ∉ extra

/-- Claim C4: for every SVG byte string, `decodeSvgDataUrl` inverts the
construction of a `data:image/svg+xml` URL, both for a base64 payload and for
a percent-encoded payload, including when extra parameter segments (such as
`;charset=utf-8;param=x`) are interposed between the MIME type and the comma
(for the percent-encoded form, provided the parameters do not spuriously
contain `;base64`). -/
theorem decodeSvgDataUrl_roundtrip :
    (∀ svg extra : List Nat, (∀ b ∈ svg, b < 256) → metaOk extra →
      decodeSvgDataUrl (mimeSvg ++ extra ++ bytes ";base64," ++ base64encode svg)
        = some svg)
    ∧ (∀ svg extra : List Nat, (∀ b ∈ svg, b < 256) → metaOk extra →
      containsSubCI (bytes ";base64") extra = false →
      decodeSvgDataUrl (mimeSvg ++ extra ++ 44 :: percentEncode svg) = some svg) := by
  constructor
  · intro svg extra hb hm
    obtain ⟨hsemi, hcomma⟩ := hm
    rcases hsemi with he | he
    · subst he
      have hrw : mimeSvg ++ [] ++ bytes ";base64," ++ base64encode svg
          = mimeSvg ++ 59 :: ((bytes "base64") ++ 44 :: base64encode svg) := by
        simp [bytes, mimeSvg]
      rw [hrw]
      unfold decodeSvgDataUrl decodeSvgDataUrlE
      rw [svgDataUrlMatch_param (bytes "base64") _ (by decide)
        (hasCrOrLf_base64encode svg)]
      have hsub : containsSubCI (bytes ";base64") (59 :: bytes "base64") = true := by decide
      simp [hsub, atobE, base64decode_encode svg hb, Except.map]
    · obtain ⟨e, rfl⟩ : ∃ e, extra = 59 :: e := by
        cases extra with
        | nil => simp at he
        | cons c cs => exact ⟨cs, by simp at he; simp [he]⟩
      have hce : 44 ∉ e := fun hmem => hcomma (by simp [hmem])
      have hrw : mimeSvg ++ (59 :: e) ++ bytes ";base64," ++ base64encode svg
          = mimeSvg ++ 59 :: ((e ++ bytes ";base64") ++ 44 :: base64encode svg) := by
        simp [bytes, mimeSvg]
      rw [hrw]
      unfold decodeSvgDataUrl decodeSvgDataUrlE
      rw [svgDataUrlMatch_param (e ++ bytes ";base64") _
        (by simp [List.mem_append]; exact ⟨hce, by decide⟩)
        (hasCrOrLf_base64encode svg)]
      have hsub : containsSubCI (bytes ";base64") (59 :: (e ++ bytes ";base64")) = true := by
        have : (59 :: (e ++ bytes ";base64")) = (59 :: e) ++ bytes ";base64" := by simp
        rw [this]
        exact containsSubCI_append_left _ _ _ (by decide)
      simp [hsub, atobE, base64decode_encode svg hb, Except.map]
  · intro svg extra hb hm hnb
    obtain ⟨hsemi, hcomma⟩ := hm
    rcases hsemi with he | he
    · subst he
      have hrw : mimeSvg ++ [] ++ 44 :: percentEncode svg
          = mimeSvg ++ 44 :: percentEncode svg := by simp
      rw [hrw]
      unfold decodeSvgDataUrl decodeSvgDataUrlE
      rw [svgDataUrlMatch_nometa _ (hasCrOrLf_percentEncode svg)]
      have hsub : containsSubCI (bytes ";base64") ([] : List Nat) = false := by decide
      simp [hsub, decodeURIComponentE, percentDecode_encode svg hb, Except.map]
    · obtain ⟨e, rfl⟩ : ∃ e, extra = 59 :: e := by
        cases extra with
        | nil => simp at he
        | cons c cs => exact ⟨cs, by simp at he; simp [he]⟩
      have hce : 44 ∉ e := fun hmem => hcomma (by simp [hmem])
      have hrw : mimeSvg ++ (59 :: e) ++ 44 :: percentEncode svg
          = mimeSvg ++ 59 :: (e ++ 44 :: percentEncode svg) := by simp
      rw [hrw]
      unfold decodeSvgDataUrl decodeSvgDataUrlE
      rw [svgDataUrlMatch_param e _ hce (hasCrOrLf_percentEncode svg)]
      simp [hnb, decodeURIComponentE, percentDecode_encode svg hb, Except.map]

theorem decodeSvgDataUrl_roundtrip_witness :
    decodeSvgDataUrl (mimeSvg ++ bytes ";charset=utf-8" ++ bytes ";base64," ++
        base64encode (bytes "<svg/>")) = some (bytes "<svg/>")
    ∧ decodeSvgDataUrl (mimeSvg ++ bytes ";charset=utf-8;param=x" ++ 44 ::
        percentEncode (bytes "<svg/>")) = some (bytes "<svg/>") :=
  ⟨decodeSvgDataUrl_roundtrip.1 (bytes "<svg/>") (bytes ";charset=utf-8")
      (by decide) ⟨Or.inr rfl, by decide⟩,
    decodeSvgDataUrl_roundtrip.2 (bytes "<svg/>") (bytes ";charset=utf-8;param=x")
      (by decide) ⟨Or.inr rfl, by decide⟩ (by decide)⟩

theorem stripPrefixCI_iff : ∀ (pat s r : List Nat),
    stripPrefixCI pat s = some r ↔
      ((s.take pat.length).map toLowerByte = pat ∧ r = s.drop pat.length)
  | [], s, r => by
    simp [stripPrefixCI, eq_comm]
  | p :: ps, [], r => by
    simp [stripPrefixCI]
  | p :: ps, c :: cs, r => by
    by_cases h : toLowerByte c = p
    · simp [stripPrefixCI, h, stripPrefixCI_iff ps cs r]
    · simp [stripPrefixCI, h]

/-- Claim C8: `isSvgDataUrl s` is true if and only if `s` begins with
`data:image/svg+xml` (ASCII case-insensitively; `mimeSvg` is that marker, of
length 18) immediately followed by a comma (byte 44) or a semicolon
(byte 59); in particular it is false for every other MIME type and whenever
the byte after the MIME type is neither of those. -/
theorem isSvgDataUrl_iff (s : List Nat) :
    isSvgDataUrl s = true ↔
      ((s.take mimeSvg.length).map toLowerByte = mimeSvg ∧
        ((s.drop mimeSvg.length).head? = some 44 ∨
          (s.drop mimeSvg.length).head? = some 59)) := by
  unfold isSvgDataUrl
  cases hstrip : stripPrefixCI mimeSvg s with
  | none =>
    simp only [iff_false_intro]
    constructor
    · intro h
      simp at h
    · rintro ⟨h1, h2⟩
      have := (stripPrefixCI_iff mimeSvg s (s.drop mimeSvg.length)).mpr ⟨h1, rfl⟩
      rw [hstrip] at this
      exact Option.noConfusion this
  | some r =>
    cases r with
    | nil =>
      have h1 := (stripPrefixCI_iff mimeSvg s []).mp hstrip
      constructor
      · intro h
        simp at h
      · rintro ⟨h2, h3⟩
        rw [← h1.2] at h3
        simp at h3
    | cons c cs =>
      have h1 := (stripPrefixCI_iff mimeSvg s (c :: cs)).mp hstrip
      show (c == 44 || c == 59) = true ↔ _
      constructor
      · intro h
        refine ⟨h1.1, ?_⟩
        rw [← h1.2]
        simp at h ⊢
        exact h
      · rintro ⟨h2, h3⟩
        rw [← h1.2] at h3
        simp at h3 ⊢
        exact h3

/-- Claim C9 counterexample: `decodeSvgDataUrl` applied to a data URL with an
empty payload returns the empty string as a present (non-absent) value. -/
theorem decodeSvgDataUrl_empty_present :
    decodeSvgDataUrl (bytes "data:image/svg+xml,") = some [] := by decide

/-- Claim C10: `isSvgDataUrl` being true does not guarantee that
`decodeSvgDataUrl` is present: witnessed both by
`data:image/svg+xml;base64` (no comma anywhere) and by a data URL whose
payload contains a newline. -/
theorem isSvgDataUrl_not_imp_decode :
    (isSvgDataUrl (bytes "data:image/svg+xml;base64") = true
      ∧ decodeSvgDataUrl (bytes "data:image/svg+xml;base64") = none)
    ∧ (isSvgDataUrl (bytes "data:image/svg+xml,<svg\n/>") = true
      ∧ decodeSvgDataUrl (bytes "data:image/svg+xml,<svg\n/>") = none) := by
  exact ⟨⟨by decide, by decide⟩, ⟨by decide, by decide⟩⟩

/-! ## DOM model

`DOMParser`/`querySelector`/`XMLSerializer` are modelled with an explicit
node tree: a tolerant, total (fuel-bounded) parser covering the tag/attribute
/text constructs exercised by this repository, pre-order element search, and
an XML-style serializer.  Parsing a string as `text/html` never throws in a
browser, so the model is total. -/

/-- A DOM node: an element with tag, attributes and children, or a text node. -/
inductive Node where
  | elem : List Nat → List (List Nat × List Nat) → List Node → Node
  | txt : List Nat → Node

/-- Text-node escaping as `XMLSerializer` performs it. -/
def escapeText : List Nat → List Nat
  | [] => []
  | b :: t =>
    (if b = 38 then bytes "&amp;"
     else if b = 60 then bytes "&lt;"
     else if b = 62 then bytes "&gt;"
     else [b]) ++ escapeText t

/-- Attribute-value escaping as `XMLSerializer` performs it. -/
def escapeAttr : List Nat → List Nat
  | [] => []
  | b :: t =>
    (if b = 38 then bytes "&amp;"
     else if b = 60 then bytes "&lt;"
     else if b = 34 then bytes "&quot;"
     else [b]) ++ escapeAttr t

/-- Serialized attribute list: ` name="value"` for each attribute, in order. -/
def serializeAttrs (attrs : List (List Nat × List Nat)) : List Nat :=
  attrs.foldr (fun a acc => 32 :: (a.1 ++ 61 :: 34 :: (escapeAttr a.2 ++ [34])) ++ acc) []

mutual

/-- `XMLSerializer.serializeToString` model: attributes preserved in order,
empty elements self-closed. -/
def serializeNode : Node → List Nat
  | Node.txt s => escapeText s
  | Node.elem t attrs kids =>
    60 :: (t ++ serializeAttrs attrs ++
      (if kids.isEmpty then [47, 62]
       else 62 :: (serializeNodes kids ++ (60 :: 47 :: (t ++ [62])))))

/-- Serialization of a sequence of sibling nodes. -/
def serializeNodes : List Node → List Nat
  | [] => []
  | n :: ns => serializeNode n ++ serializeNodes ns

end

mutual

/-- Elements of a subtree in pre-order (document order), as `querySelector`
visits them. -/
def preorderElemsN : Node → List Node
  | Node.txt _ => []
  | Node.elem t a kids => Node.elem t a kids :: preorderElemsL kids

/-- Elements of a forest in pre-order. -/
def preorderElemsL : List Node → List Node
  | [] => []
  | n :: ns => preorderElemsN n ++ preorderElemsL ns

end

/-- ASCII letter. -/
def isLetterB (b : Nat) : Bool := (65 ≤ b && b ≤ 90) || (97 ≤ b && b ≤ 122)

/-- Tag/attribute name byte (letters, digits, hyphen). -/
def isNameByte (b : Nat) : Bool := isLetterB b || (48 ≤ b && b ≤ 57) || b == 45

/-- ASCII lower-casing of a byte string (HTML parsing lower-cases tag and
attribute names). -/
def lowerBytes (s : List Nat) : List Nat := s.map toLowerByte

/-- Parse one attribute value: double-quoted, single-quoted, or unquoted. -/
def parseAttrValue (s : List Nat) : List Nat × List Nat :=
  match s with
  | 34 :: t => (t.takeWhile (fun b => !(b == 34)), (t.dropWhile (fun b => !(b == 34))).drop 1)
  | 39 :: t => (t.takeWhile (fun b => !(b == 39)), (t.dropWhile (fun b => !(b == 39))).drop 1)
  | t =>
    let v := t.takeWhile (fun b => !(isJsSpace b || b == 62))
    (v, t.drop v.length)

/-- Parse attributes until `>`, `/` or end of input (fuel-bounded). -/
def parseAttrsF : Nat → List Nat → (List (List Nat × List Nat) × List Nat)
  | 0, s => ([], s)
  | fuel + 1, s =>
    let s1 := s.dropWhile isJsSpace
    match s1 with
    | [] => ([], [])
    | 62 :: _ => ([], s1)
    | 47 :: _ => ([], s1)
    | _ =>
      let name := s1.takeWhile isNameByte
      if name.isEmpty then parseAttrsF fuel (s1.drop 1)
      else
        let s2 := s1.drop name.length
        match s2 with
        | 61 :: t =>
          let p := parseAttrValue t
          let q := parseAttrsF fuel p.2
          ((lowerBytes name, p.1) :: q.1, q.2)
        | _ =>
          let q := parseAttrsF fuel s2
          ((lowerBytes name, []) :: q.1, q.2)

/-- Consume a closing tag `</name>` when present (tolerantly). -/
def skipCloseTag (s : List Nat) : List Nat :=
  match s with
  | 60 :: 47 :: t => (t.dropWhile (fun b => !(b == 62))).drop 1
  | _ => s

/-- Tolerant, fuel-bounded parse of a node forest; stops before a closing
tag, which the enclosing element consumes. -/
def parseNodesF : Nat → List Nat → (List Node × List Nat)
  | 0, s => ([], s)
  | _ + 1, [] => ([], [])
  | _ + 1, 60 :: 47 :: rest => ([], 60 :: 47 :: rest)
  | fuel + 1, 60 :: c :: rest =>
    if isLetterB c then
      let tagRaw := (c :: rest).takeWhile isNameByte
      let tag := lowerBytes tagRaw
      let s1 := (c :: rest).drop tagRaw.length
      let pa := parseAttrsF fuel s1
      match pa.2 with
      | 47 :: 62 :: s3 =>
        let pn := parseNodesF fuel s3
        (Node.elem tag pa.1 [] :: pn.1, pn.2)
      | 62 :: s3 =>
        let pk := parseNodesF fuel s3
        let s5 := skipCloseTag pk.2
        let pn := parseNodesF fuel s5
        (Node.elem tag pa.1 pk.1 :: pn.1, pn.2)
      | _ => ([Node.elem tag pa.1 []], [])
    else
      let pn := parseNodesF fuel (c :: rest)
      (Node.txt [60] :: pn.1, pn.2)
  | _ + 1, [60] => ([Node.txt [60]], [])
  | fuel + 1, c :: rest =>
    let t := (c :: rest).takeWhile (fun b => !(b == 60))
    let pn := parseNodesF fuel ((c :: rest).drop t.length)
    (Node.txt t :: pn.1, pn.2)

/-- `DOMParser().parseFromString(s, 'text/html')` model: the parsed forest. -/
def parseDoc (s : List Nat) : List Node := (parseNodesF (2 * s.length + 2) s).1

/-- Whether a node is an `svg` element (`querySelector('svg')` predicate). -/
def isSvgElem : Node → Bool
  | Node.elem t _ _ => t == bytes "svg"
  | _ => false

/-- `getAttribute` model. -/
def getAttrN (n : Node) (name : List Nat) : Option (List Nat) :=
  match n with
  | Node.elem _ attrs _ => (attrs.find? (fun a => a.1 == name)).map (·.2)
  | _ => none

/-- `img[src^="data:image/svg+xml"]` predicate (prefix matched
case-insensitively, per the spec and the repository's test corpus). -/
def imgSvgMatch (n : Node) : Bool :=
  match n with
  | Node.elem t attrs _ =>
    t == bytes "img" &&
      (match (attrs.find? (fun a => a.1 == bytes "src")).map (·.2) with
       | some v => startsWithCI mimeSvg v
       | none => false)
  | _ => false

/-- `object[type="image/svg+xml"][data^="data:image/svg+xml"]` predicate. -/
def objSvgMatch (n : Node) : Bool :=
  match n with
  | Node.elem t attrs _ =>
    t == bytes "object" &&
      (match (attrs.find? (fun a => a.1 == bytes "type")).map (·.2) with
       | some v => lowerBytes v == bytes "image/svg+xml"
       | none => false) &&
      (match (attrs.find? (fun a => a.1 == bytes "data")).map (·.2) with
       | some v => startsWithCI mimeSvg v
       | none => false)
  | _ => false

/-- `doc.querySelector('svg')` model: first `svg` element in document order. -/
def firstSvgElement (doc : List Node) : Option Node :=
  (preorderElemsL doc).find? isSvgElem

/-- Body of `extractFirstSvgFromHtml` on a parsed document: (A) first literal
`svg` element, serialized; else (B) first matching `img`, its `src` decoded,
returned only when truthy; else (C) first matching `object`, its `data`
decoded, returned only when truthy; else absent. -/
def extractFirstSvgFromDoc (doc : List Node) : Option (List Nat) :=
  match firstSvgElement doc with
  | some e => some (serializeNode e)
  | none =>
    let fromImg :=
      match (preorderElemsL doc).find? imgSvgMatch with
      | some n =>
        match getAttrN n (bytes "src") with
        | some src => jsTruthyOpt (decodeSvgDataUrl src)
        | none => none
      | none => none
    match fromImg with
    | some v => some v
    | none =>
      match (preorderElemsL doc).find? objSvgMatch with
      | some n =>
        match getAttrN n (bytes "data") with
        | some d => jsTruthyOpt (decodeSvgDataUrl d)
        | none => none
      | none => none

/-- Model of `extractFirstSvgFromHtml`: parse, then search as above.  The
source wraps the body in `try`/`catch`; parsing as `text/html` and
serialization are total here, so the catch has nothing to convert. -/
def extractFirstSvgFromHtml (h : List Nat) : Option (List Nat) :=
  extractFirstSvgFromDoc (parseDoc h)

/-- Scan for the earliest case-insensitive `</svg>` and return everything up
to and including it (the lazy body of the regex `<svg[\s\S]*?<\/svg>`). -/
def closeSvgScan : List Nat → Option (List Nat)
  | [] => none
  | c :: t =>
    if startsWithCI (bytes "</svg>") (c :: t) then some ((c :: t).take 6)
    else (closeSvgScan t).map (c :: ·)

/-- Model of `matchInlineSvg`: `s.match(/<svg[\s\S]*?<\/svg>/i)`, i.e. the
leftmost occurrence of `<svg` (case-insensitive) extended minimally to the
earliest following `</svg>`; absent when there is no match (if no `</svg>`
follows the leftmost `<svg>`, none follows any later one either). -/
def matchInlineSvg : List Nat → Option (List Nat)
  | [] => none
  | c :: t =>
    if startsWithCI (bytes "<svg") (c :: t) then
      (closeSvgScan ((c :: t).drop 4)).map (fun body => (c :: t).take 4 ++ body)
    else matchInlineSvg t

/-! ## Clipboard data model -/

/-- `DataTransferItem.kind`: `'file'` or `'string'`. -/
inductive ItemKind where
  | file : ItemKind
  | str : ItemKind
deriving DecidableEq

/-- A `File`: name, MIME type, contents. -/
structure FileV where
  name : List Nat
  type : List Nat
  content : List Nat
deriving DecidableEq

/-- A `DataTransferItem`.  `getAsFile = none` models an absent method;
`some none` a method returning `null`; `some (some f)` a real file.
`getAsString = none` models an absent method (its callback then never fires);
`some s` a method that delivers `s` to the callback. -/
structure Item where
  kind : ItemKind
  type : List Nat
  getAsFile : Option (Option FileV)
  getAsString : Option (List Nat)
deriving DecidableEq

/-- A `DataTransfer`: the item list and the (possibly absent, possibly
throwing) `getData` method of the KeyedStore interface. -/
structure DataTransfer where
  items : List Item
  getData : Option (List Nat → Except Unit (List Nat))

/-- A paste event: `evt.clipboardData` and the legacy
`evt.originalEvent?.clipboardData`. -/
structure Event where
  clipboardData : Option DataTransfer
  originalEventClipboardData : Option DataTransfer

/-- The result triple `{files, text, html}`. -/
structure Result where
  files : List FileV
  text : Option (List Nat)
  html : Option (List Nat)
deriving DecidableEq

/-- Model of `fileFromSvgText` (the generated timestamp-based name is not
observable by any claim and is modelled by a fixed name). -/
def fileFromSvgText (t : List Nat) : FileV :=
  ⟨bytes "pasted.svg", bytes "image/svg+xml", t⟩

/-- Model of `getDataSafe`: `try { return dt.getData?.(type) || '' } catch
{ return '' }` — an absent method or a thrown lookup yields the empty
string. -/
def getDataSafe (dt : DataTransfer) (ty : List Nat) : List Nat :=
  match dt.getData with
  | none => []
  | some g =>
    match g ty with
    | Except.ok s => s
    | Except.error _ => []

/-- `typeof` applied to a boolean value yields the string `"boolean"`. -/
def jsTypeofOfBool (_b : Bool) : List Nat := bytes "boolean"

/-- Whether `items[0]?.getAsFile` is a function. -/
def headHasGetAsFile (items : List Item) : Bool :=
  match items.head? with
  | some it => it.getAsFile.isSome
  | none => false

/-- Embedding of the source condition
`items.length && typeof (items[0]?.getAsString === 'function' || typeof
items[0]?.getAsFile === 'function')`.  The first disjunct compares a
function (or `undefined`) against the string `'function'`, hence is always
`false`; `typeof` is applied to the whole disjunction, yielding the string
`"boolean"`, whose truthiness is its non-emptiness. -/
def canUseItems (items : List Item) : Bool :=
  !items.isEmpty && !(jsTypeofOfBool (false || headHasGetAsFile items)).isEmpty

/-- First loop of `extractFromItems`: a `file`-kind item whose type starts
with `image/` is passed through via `getAsFile` (and skipped by `continue`
for the rest of the loop body). -/
def isFileImage (it : Item) : Bool :=
  match it.kind with
  | ItemKind.file => List.isPrefixOf (bytes "image/") it.type
  | ItemKind.str => false

/-- The pass-through files collected by the item loop. -/
def passFiles (items : List Item) : List FileV :=
  items.filterMap (fun it => if isFileImage it then it.getAsFile.bind id else none)

/-- Items for which the loop pushes a `getAsString` promise: not handled by
the file branch, and of type `text/html` or `text/plain`. -/
def isTextItem (it : Item) : Bool :=
  !isFileImage it && (it.type == bytes "text/html" || it.type == bytes "text/plain")

/-- The string items, in original order (the order of the promise array). -/
def textItems (items : List Item) : List Item := items.filter isTextItem

/-- The strings the `getAsString` callbacks deliver, in promise order;
`none` when some item lacks `getAsString`, in which case its promise never
settles and `Promise.all` never resolves. -/
def payloads (items : List Item) : Option (List (List Nat)) :=
  (textItems items).mapM (fun it => it.getAsString)

/-- The `texts` array: each resolved string tagged with its item's declared
type, in promise (original) order — what `Promise.all` yields. -/
def textsOfStrs (items : List Item) (strs : List (List Nat)) :
    List (List Nat × List Nat) :=
  ((textItems items).map (fun it => it.type)).zip strs

/-- Plain-text SVG synthesis: first an inline `<svg>` match, else (when the
trimmed string is an SVG data URL) a decode, each guarded by truthiness. -/
def plainSvgFiles (t : List Nat) : List FileV :=
  match jsTruthyOpt (matchInlineSvg t) with
  | some svg => [fileFromSvgText svg]
  | none =>
    if isSvgDataUrl (jsTrim t) then
      match jsTruthyOpt (decodeSvgDataUrl (jsTrim t)) with
      | some d => [fileFromSvgText d]
      | none => []
    else []

/-- Tail of `extractFromItems` after the join: select `html`/`text` as the
first entry of the right type with a truthy string, then append the
HTML-extracted SVG (if any) and then the plain-text-extracted SVG (if any)
to the pass-through files. -/
def finishFromTexts (items : List Item) (texts : List (List Nat × List Nat)) :
    Result :=
  let files0 := passFiles items
  let html := (texts.find? (fun t => t.1 == bytes "text/html" && !t.2.isEmpty)).map (fun t => t.2)
  let text := (texts.find? (fun t => t.1 == bytes "text/plain" && !t.2.isEmpty)).map (fun t => t.2)
  let files1 := files0 ++
    (match html with
     | some h =>
       match jsTruthyOpt (extractFirstSvgFromHtml h) with
       | some svg => [fileFromSvgText svg]
       | none => []
     | none => [])
  let files2 := files1 ++
    (match text with
     | some t => plainSvgFiles t
     | none => [])
  ⟨files2, text, html⟩

/-- Model of `extractFromItems` (canonical run: `Promise.all` yields the
deliveries in promise order).  `none` models an invocation that never
settles. -/
def extractFromItems (items : List Item) : Option Result :=
  (payloads items).map (fun ps => finishFromTexts items (textsOfStrs items ps))

/-- `Promise.all`'s fan-in: given the arrival sequence `σ` of
(promise index, delivered string) pairs, assemble the slots `i, i+1, ...`
(`k` many) in index order; `none` when some slot never receives a value. -/
def promiseAllJoinFrom (σ : List (Nat × List Nat)) : Nat → Nat → Option (List (List Nat))
  | 0, _ => some []
  | k + 1, i =>
    match σ.lookup i with
    | none => none
    | some v => (promiseAllJoinFrom σ k (i + 1)).map (v :: ·)

/-- `extractFromItems` under an explicit completion schedule `σ`: the
callbacks may complete in any order; `Promise.all` still assembles its
result by promise index. -/
def extractFromItemsSched (items : List Item) (σ : List (Nat × List Nat)) :
    Option Result :=
  (promiseAllJoinFrom σ (textItems items).length 0).map
    (fun ps => finishFromTexts items (textsOfStrs items ps))

/-- The Firefox/generic fallback of `getPastedData` (KeyedStore path). -/
def fallbackPath (dt : DataTransfer) : Result :=
  let html := getDataSafe dt (bytes "text/html")
  let plain0 := getDataSafe dt (bytes "text/plain")
  let plain := if plain0.isEmpty then getDataSafe dt (bytes "text") else plain0
  let svgFromHtml := if html.isEmpty then none else extractFirstSvgFromHtml html
  let files1 :=
    match jsTruthyOpt svgFromHtml with
    | some svg => [fileFromSvgText svg]
    | none => []
  let files2 := files1 ++
    (if !plain.isEmpty && (jsTruthyOpt svgFromHtml).isNone then plainSvgFiles plain
     else [])
  ⟨files2, if plain.isEmpty then none else some plain,
    if html.isEmpty then none else some html⟩

/-- JavaScript `a || b` on nullable values. -/
def jsOr (a b : Option DataTransfer) : Option DataTransfer :=
  match a with
  | some x => some x
  | none => b

/-- `getPastedData`, parameterized by the item-extraction function (used to
run it under different completion schedules). -/
def getPastedDataCore (evt : Event) (ext : List Item → Option Result) :
    Option Result :=
  match jsOr evt.clipboardData evt.originalEventClipboardData with
  | none => some ⟨[], none, none⟩
  | some dt =>
    if canUseItems dt.items then
      match ext dt.items with
      | none => none
      | some r =>
        if !r.files.isEmpty || r.text.isSome || r.html.isSome then some r
        else some (fallbackPath dt)
    else some (fallbackPath dt)

/-- Model of `getPastedData` (canonical completion order).  `none` models an
invocation that suspends forever (a promise that never settles); a settled
invocation always produces a `Result`, never an exception. -/
def getPastedData (evt : Event) : Option Result :=
  getPastedDataCore evt extractFromItems

/-- `getPastedData` under an explicit completion schedule for the
`getAsString` retrievals. -/
def getPastedDataSched (evt : Event) (σ : List (Nat × List Nat)) : Option Result :=
  getPastedDataCore evt (fun its => extractFromItemsSched its σ)

/-! ## Truthiness and non-emptiness helpers -/

theorem jsTruthyOpt_some (o : Option (List Nat)) (v : List Nat)
    (h : jsTruthyOpt o = some v) : v ≠ [] := by
  unfold jsTruthyOpt at h
  split at h
  · cases h
    simp
  · exact Option.noConfusion h

theorem jsTruthyOpt_of_ne_nil (v : List Nat) (hv : v ≠ []) :
    jsTruthyOpt (some v) = some v := by
  cases v with
  | nil => exact absurd rfl hv
  | cons c cs => rfl

theorem extractFirstSvgFromDoc_ne_nil (doc : List Node) (v : List Nat)
    (hv : extractFirstSvgFromDoc doc = some v) : v ≠ [] := by
  unfold extractFirstSvgFromDoc at hv
  cases hfind : firstSvgElement doc with
  | some e =>
    rw [hfind] at hv
    have hp : isSvgElem e = true := by
      unfold firstSvgElement at hfind
      exact List.find?_some hfind
    cases e with
    | txt s => simp [isSvgElem] at hp
    | elem t a k =>
      cases hv
      simp [serializeNode]
  | none =>
    rw [hfind] at hv
    dsimp only [] at hv
    split at hv
    next v' heq =>
      cases hv
      split at heq
      · split at heq
        · exact jsTruthyOpt_some _ _ heq
        · exact Option.noConfusion heq
      · exact Option.noConfusion heq
    next heq =>
      split at hv
      · split at hv
        · exact jsTruthyOpt_some _ _ hv
        · exact Option.noConfusion hv
      · exact Option.noConfusion hv

theorem matchInlineSvg_ne_nil : ∀ (s v : List Nat), matchInlineSvg s = some v → v ≠ []
  | [], v, hv => by simp [matchInlineSvg] at hv
  | c :: t, v, hv => by
    unfold matchInlineSvg at hv
    split at hv
    · rcases Option.map_eq_some'.mp hv with ⟨body, hb, rfl⟩
      simp
    · exact matchInlineSvg_ne_nil t v hv

/-- Claim C9 (amended): a present `matchInlineSvg` result and a present
`extractFirstSvgFromHtml` result are always non-empty; `decodeSvgDataUrl`
alone can return an empty present string (see its counterexample), which
every call site then discards by truthiness. -/
theorem svgProducers_nonempty :
    (∀ s v : List Nat, matchInlineSvg s = some v → v ≠ [])
    ∧ (∀ h v : List Nat, extractFirstSvgFromHtml h = some v → v ≠ []) :=
  ⟨matchInlineSvg_ne_nil,
   fun h v hv => extractFirstSvgFromDoc_ne_nil (parseDoc h) v hv⟩

theorem svgProducers_nonempty_witness :
    (matchInlineSvg (bytes "a<svg></svg>") = some (bytes "<svg></svg>")
      ∧ bytes "<svg></svg>" ≠ [])
    ∧ (extractFirstSvgFromHtml (bytes "<b><svg></svg></b>") = some (bytes "<svg/>")
      ∧ bytes "<svg/>" ≠ []) :=
  ⟨⟨rfl, svgProducers_nonempty.1 (bytes "a<svg></svg>") (bytes "<svg></svg>") rfl⟩,
   ⟨rfl, svgProducers_nonempty.2 (bytes "<b><svg></svg></b>") (bytes "<svg/>") rfl⟩⟩

/-! ## Claim C2: the ItemList-usability check -/

/-- An item offering neither `getAsFile` nor `getAsString`. -/
def noCapabilityItem : Item := ⟨ItemKind.str, bytes "text/html", none, none⟩

/-- The failing event for claim C2: a non-empty item list none of whose
entries offers a retrieval capability. -/
def noCapabilityEvent : Event := ⟨some ⟨[noCapabilityItem], none⟩, none⟩

/-- Claim C2: the source's capability check is a slip — `typeof` is applied
to the whole boolean disjunction, which yields the truthy string
`"boolean"`, so `canUseItems` is true for ANY non-empty item list.  On an
item list whose sole entry offers neither `getAsFile` nor `getAsString` the
ItemList path is therefore entered (instead of the KeyedStore fallback the
claim and spec require) and the invocation then awaits a `getAsString`
callback that can never fire (modelled as `none`). -/
theorem canUseItems_capability_bug :
    canUseItems [noCapabilityItem] = true
    ∧ getPastedData noCapabilityEvent = none := ⟨rfl, rfl⟩

/-! ## Claim C1 and C3 counterexamples -/

/-- Event whose item list carries a `text/html` string with an inline SVG
AND a `text/plain` string with an inline SVG. -/
def bothSvgEvent : Event :=
  ⟨some ⟨[⟨ItemKind.str, bytes "text/html", none, some (bytes "<svg><rect/></svg>")⟩,
          ⟨ItemKind.str, bytes "text/plain", none, some (bytes "x<svg><line/></svg>")⟩],
         none⟩, none⟩

/-- Claim C1 counterexample: on the ItemList path, when both the resolved
html string and the resolved plain string contain extractable SVG, TWO SVG
files are synthesized in one invocation (the HTML-sourced one first), so
plain-text extraction is NOT restricted to the case where HTML extraction
yielded nothing. -/
theorem getPastedData_two_synthesized :
    getPastedData bothSvgEvent =
      some ⟨[fileFromSvgText (bytes "<svg><rect/></svg>"),
             fileFromSvgText (bytes "<svg><line/></svg>")],
            some (bytes "x<svg><line/></svg>"), some (bytes "<svg><rect/></svg>")⟩ := rfl

/-- A pass-through PNG file. -/
def pngFile : FileV := ⟨bytes "x.png", bytes "image/png", bytes "PNGDATA"⟩

/-- Event with a real image file entry plus a `text/html` entry containing
an inline SVG. -/
def filePlusHtmlEvent : Event :=
  ⟨some ⟨[⟨ItemKind.file, bytes "image/png", some (some pngFile), none⟩,
          ⟨ItemKind.str, bytes "text/html", none,
            some (bytes "<div><svg><rect/></svg></div>")⟩],
         none⟩, none⟩

/-- Claim C3 counterexample: with a real image file entry and a `text/html`
entry containing inline SVG, `files` does contain both the pass-through file
and the synthesized SVG file, but the result's `html` field is the resolved
HTML string — present, not absent as the claim states. -/
theorem filePlusHtml_html_present :
    getPastedData filePlusHtmlEvent =
      some ⟨[pngFile, fileFromSvgText (bytes "<svg><rect/></svg>")],
            none, some (bytes "<div><svg><rect/></svg></div>")⟩
    ∧ (some (bytes "<div><svg><rect/></svg></div>") : Option (List Nat)) ≠ none :=
  ⟨rfl, by simp⟩

/-! ## Claim C1 (amended): the fallback path synthesizes at most one SVG -/

theorem plainSvgFiles_length_le (t : List Nat) : (plainSvgFiles t).length ≤ 1 := by
  unfold plainSvgFiles
  split
  · simp
  · split
    · split
      · simp
      · simp
    · simp

theorem getPastedData_no_items (dt : DataTransfer) (h : dt.items = []) :
    getPastedData ⟨some dt, none⟩ = some (fallbackPath dt) := by
  obtain ⟨items, g⟩ := dt
  have h2 : items = [] := h
  subst h2
  rfl

theorem fallbackPath_spec (dt : DataTransfer) :
    (fallbackPath dt).files.length ≤ 1
    ∧ (∀ svg, (getDataSafe dt (bytes "text/html")).isEmpty = false →
        extractFirstSvgFromHtml (getDataSafe dt (bytes "text/html")) = some svg →
        (fallbackPath dt).files = [fileFromSvgText svg]) := by
  constructor
  · unfold fallbackPath
    dsimp only []
    cases hx : jsTruthyOpt (if (getDataSafe dt (bytes "text/html")).isEmpty then none
        else extractFirstSvgFromHtml (getDataSafe dt (bytes "text/html"))) with
    | some svg => simp [hx]
    | none =>
      simp only [hx]
      split <;> (try split) <;> first | exact plainSvgFiles_length_le _ | simp
  · intro svg hne hsvg
    have hsne : svg ≠ [] := extractFirstSvgFromDoc_ne_nil _ _ hsvg
    unfold fallbackPath
    dsimp only []
    simp [hne, hsvg, jsTruthyOpt_of_ne_nil svg hsne]

/-- Claim C1 (amended): on the KeyedStore fallback path the invocation
synthesizes at most one SVG file, and when the html string yields an
extracted SVG it is the one synthesized (plain-text extraction is attempted
only if HTML extraction yielded nothing).  On the ItemList path this fails:
plain-text extraction runs even when HTML extraction succeeded, so up to two
SVG files are synthesized, the HTML-sourced one first (see the
counterexample). -/
theorem fallback_single_svg (dt : DataTransfer) (hitems : dt.items = []) :
    ∃ r, getPastedData ⟨some dt, none⟩ = some r ∧
      r.files.length ≤ 1 ∧
      (∀ svg, (getDataSafe dt (bytes "text/html")).isEmpty = false →
        extractFirstSvgFromHtml (getDataSafe dt (bytes "text/html")) = some svg →
        r.files = [fileFromSvgText svg]) :=
  ⟨fallbackPath dt, getPastedData_no_items dt hitems,
    (fallbackPath_spec dt).1, (fallbackPath_spec dt).2⟩

/-- Concrete KeyedStore for the C1 witness: html and plain both hold SVG. -/
def bothSvgStore : List Nat → Except Unit (List Nat) := fun ty =>
  if ty = bytes "text/html" then Except.ok (bytes "<b><svg><g/></svg></b>")
  else Except.ok (bytes "p<svg><k/></svg>")

theorem fallback_single_svg_witness :
    ∃ r, getPastedData ⟨some ⟨[], some bothSvgStore⟩, none⟩ = some r ∧
      r.files.length ≤ 1 ∧
      (∀ svg, (getDataSafe ⟨[], some bothSvgStore⟩ (bytes "text/html")).isEmpty = false →
        extractFirstSvgFromHtml
            (getDataSafe ⟨[], some bothSvgStore⟩ (bytes "text/html")) = some svg →
        r.files = [fileFromSvgText svg]) :=
  fallback_single_svg ⟨[], some bothSvgStore⟩ rfl

/-! ## Claim C5: first `svg` element in document order -/

/-- The `svg` elements of a parsed document in document order. -/
def svgElementsOf (doc : List Node) : List Node :=
  (preorderElemsL doc).filter isSvgElem

theorem find?_eq_filter_head? {α : Type} (p : α → Bool) :
    ∀ l : List α, l.find? p = (l.filter p).head?
  | [] => rfl
  | a :: l => by
    by_cases h : p a = true
    · rw [List.find?_cons_of_pos _ h, List.filter_cons_of_pos h]
      rfl
    · rw [List.find?_cons_of_neg _ h, List.filter_cons_of_neg h]
      exact find?_eq_filter_head? p l

/-- Claim C5: whenever the parsed document contains `svg` elements (in
particular several of them), `extractFirstSvgFromHtml` returns exactly the
serialization of the first one in document order — attributes preserved by
`serializeNode` — and nothing originating from any later `svg` element (the
result is determined by the first element alone). -/
theorem extractFirstSvgFromHtml_first (h : List Nat) (e : Node) (rest : List Node)
    (hsvg : svgElementsOf (parseDoc h) = e :: rest) :
    extractFirstSvgFromHtml h = some (serializeNode e) := by
  unfold extractFirstSvgFromHtml extractFirstSvgFromDoc firstSvgElement
  unfold svgElementsOf at hsvg
  rw [find?_eq_filter_head?, hsvg]
  rfl

/-- HTML input with two `svg` elements for the C5 witness. -/
def twoSvgHtml : List Nat :=
  bytes "<div><svg id=\"a\"><rect/></svg><svg id=\"b\"></svg></div>"

/-- The first `svg` element of `twoSvgHtml` as parsed. -/
def twoSvgFirst : Node :=
  Node.elem (bytes "svg") [(bytes "id", bytes "a")] [Node.elem (bytes "rect") [] []]

theorem extractFirstSvgFromHtml_first_witness :
    extractFirstSvgFromHtml twoSvgHtml = some (serializeNode twoSvgFirst) :=
  extractFirstSvgFromHtml_first twoSvgHtml twoSvgFirst
    [Node.elem (bytes "svg") [(bytes "id", bytes "b")] []] rfl

/-! ## Claim C7: no exception escapes `getPastedData` -/

/-- Claim C7: an event with no clipboard source yields the all-empty result;
a KeyedStore lookup that throws is converted to the empty string inside
`getDataSafe`; a decode failure (thrown by `atob`/`decodeURIComponent`) is
converted to an absent result inside `decodeSvgDataUrl`.  Parsing as
`text/html` never throws, so `extractFirstSvgFromHtml` is total; with every
fallible primitive caught at its own scope, `getPastedData` (a total
function to a `Result`-or-suspension) never propagates an exception. -/
theorem getPastedData_error_policy :
    (∀ evt : Event, evt.clipboardData = none → evt.originalEventClipboardData = none →
      getPastedData evt = some ⟨[], none, none⟩)
    ∧ (∀ (its : List Item) (g : List Nat → Except Unit (List Nat)) (ty : List Nat),
        g ty = Except.error () →
        getDataSafe ⟨its, some g⟩ ty = [])
    ∧ (∀ u : List Nat, decodeSvgDataUrlE u = Except.error () →
        decodeSvgDataUrl u = none) := by
  refine ⟨?_, ?_, ?_⟩
  · intro evt h1 h2
    unfold getPastedData getPastedDataCore jsOr
    rw [h1, h2]
  · intro its g ty hg
    unfold getDataSafe
    simp [hg]
  · intro u hu
    unfold decodeSvgDataUrl
    rw [hu]

/-- A KeyedStore lookup that always throws. -/
def throwingStore : List Nat → Except Unit (List Nat) := fun _ => Except.error ()

theorem getPastedData_error_policy_witness :
    getPastedData ⟨none, none⟩ = some ⟨[], none, none⟩
    ∧ getDataSafe ⟨[], some throwingStore⟩ (bytes "text/html") = []
    ∧ decodeSvgDataUrl (bytes "data:image/svg+xml,%") = none :=
  ⟨getPastedData_error_policy.1 ⟨none, none⟩ rfl rfl,
   getPastedData_error_policy.2.1 [] throwingStore (bytes "text/html") rfl,
   getPastedData_error_policy.2.2 (bytes "data:image/svg+xml,%") rfl⟩

/-! ## Claim C3 (amended): file + html item list -/

theorem getPastedData_items_some (items : List Item)
    (g : Option (List Nat → Except Unit (List Nat))) (r : Result)
    (hcan : canUseItems items = true)
    (hext : extractFromItems items = some r)
    (hguard : (!r.files.isEmpty || r.text.isSome || r.html.isSome) = true) :
    getPastedData ⟨some ⟨items, g⟩, none⟩ = some r := by
  unfold getPastedData getPastedDataCore jsOr
  dsimp only []
  rw [hcan, hext]
  simp [hguard]

/-- Claim C3 (amended): for an ItemList consisting of a `file`-kind entry of
an `image/*` type together with a `text/html` string entry whose resolved
string yields an extracted SVG, the result's files are the pass-through file
followed by the synthesized SVG file and `text` is absent — but `html` is
present, equal to the resolved HTML string (not absent, as the claim
states; see the counterexample). -/
theorem filePlusHtml_amended (fn ft fc hs svg : List Nat)
    (hft : List.isPrefixOf (bytes "image/") ft = true)
    (hhs : hs ≠ [])
    (hsvg : extractFirstSvgFromHtml hs = some svg) :
    getPastedData ⟨some ⟨[⟨ItemKind.file, ft, some (some ⟨fn, ft, fc⟩), none⟩,
        ⟨ItemKind.str, bytes "text/html", none, some hs⟩], none⟩, none⟩
      = some ⟨[⟨fn, ft, fc⟩, fileFromSvgText svg], none, some hs⟩ := by
  have hsne : svg ≠ [] := extractFirstSvgFromDoc_ne_nil _ _ hsvg
  have hse : hs.isEmpty = false := by
    cases hs with
    | nil => exact absurd rfl hhs
    | cons a b => rfl
  have hfi : isFileImage ⟨ItemKind.file, ft, some (some ⟨fn, ft, fc⟩), none⟩ = true := by
    simp [isFileImage, hft]
  have hti1 : isTextItem ⟨ItemKind.file, ft, some (some ⟨fn, ft, fc⟩), none⟩ = false := by
    simp [isTextItem, hfi]
  have hti2 : isTextItem ⟨ItemKind.str, bytes "text/html", none, some hs⟩ = true := by
    simp [isTextItem, isFileImage]
  have htext : textItems [⟨ItemKind.file, ft, some (some ⟨fn, ft, fc⟩), none⟩,
      ⟨ItemKind.str, bytes "text/html", none, some hs⟩] =
      [⟨ItemKind.str, bytes "text/html", none, some hs⟩] := by
    simp [textItems, List.filter, hti1, hti2]
  have hps : payloads [⟨ItemKind.file, ft, some (some ⟨fn, ft, fc⟩), none⟩,
      ⟨ItemKind.str, bytes "text/html", none, some hs⟩] = some [hs] := by
    rw [payloads, htext]
    rfl
  have hft2 : bytes "image/" <+: ft := List.isPrefixOf_iff_prefix.mp hft
  have hpass : passFiles [⟨ItemKind.file, ft, some (some ⟨fn, ft, fc⟩), none⟩,
      ⟨ItemKind.str, bytes "text/html", none, some hs⟩] = [⟨fn, ft, fc⟩] := by
    simp [passFiles, List.filterMap, hfi, isFileImage, hft2]
  have hext : extractFromItems [⟨ItemKind.file, ft, some (some ⟨fn, ft, fc⟩), none⟩,
      ⟨ItemKind.str, bytes "text/html", none, some hs⟩]
      = some ⟨[⟨fn, ft, fc⟩, fileFromSvgText svg], none, some hs⟩ := by
    unfold extractFromItems
    rw [hps]
    simp only [Option.map_some']
    unfold finishFromTexts textsOfStrs
    rw [htext]
    have hneq : ¬(bytes "text/html" = bytes "text/plain") := by decide
    simp [hse, hpass, hsvg, jsTruthyOpt_of_ne_nil svg hsne, plainSvgFiles, hneq]
  exact getPastedData_items_some _ none _ rfl hext (by simp)

theorem filePlusHtml_amended_witness :
    getPastedData ⟨some ⟨[⟨ItemKind.file, bytes "image/png",
        some (some ⟨bytes "f.png", bytes "image/png", bytes "D"⟩), none⟩,
        ⟨ItemKind.str, bytes "text/html", none, some (bytes "<p><svg></svg></p>")⟩],
        none⟩, none⟩
      = some ⟨[⟨bytes "f.png", bytes "image/png", bytes "D"⟩,
               fileFromSvgText (bytes "<svg/>")],
              none, some (bytes "<p><svg></svg></p>")⟩ :=
  filePlusHtml_amended (bytes "f.png") (bytes "image/png") (bytes "D")
    (bytes "<p><svg></svg></p>") (bytes "<svg/>") (by decide) (by decide) rfl

/-! ## Claim C6: completion-order invariance of the ItemList path -/

theorem lookup_eq_some_of {β : Type} (σ : List (Nat × β)) (j : Nat) (d : β)
    (hmem : (j, d) ∈ σ) (huniq : ∀ v, (j, v) ∈ σ → v = d) : σ.lookup j = some d := by
  induction σ with
  | nil => simp at hmem
  | cons p σ' ih =>
    obtain ⟨k, w⟩ := p
    by_cases hk : j = k
    · subst hk
      have hw : w = d := huniq w (List.mem_cons_self _ _)
      subst hw
      simp [List.lookup]
    · have hmem' : (j, d) ∈ σ' := by
        rcases List.mem_cons.mp hmem with he | hm
        · exact absurd (congrArg Prod.fst he) hk
        · exact hm
      have hbeq : (j == k) = false := by simp [hk]
      simp [List.lookup, hbeq]
      exact ih hmem' (fun v hv => huniq v (List.mem_cons_of_mem _ hv))

theorem lookup_eq_none_of {β : Type} (σ : List (Nat × β)) (j : Nat)
    (hno : ∀ v, ¬((j, v) ∈ σ)) : σ.lookup j = none := by
  induction σ with
  | nil => rfl
  | cons p σ' ih =>
    obtain ⟨k, w⟩ := p
    by_cases hk : j = k
    · subst hk
      exact absurd (List.mem_cons_self _ _) (hno w)
    · have hbeq : (j == k) = false := by simp [hk]
      simp only [List.lookup, hbeq]
      exact ih (fun v hv => hno v (List.mem_cons_of_mem _ hv))

/-- Whatever order the (index, value) completions arrive in, looking a slot
up yields that slot's delivered value. -/
theorem lookup_of_perm_enum {β : Type} (ps : List β) (σ : List (Nat × β))
    (hperm : σ.Perm ps.enum) (j : Nat) : σ.lookup j = ps[j]? := by
  cases hj : ps[j]? with
  | some v =>
    apply lookup_eq_some_of
    · exact hperm.mem_iff.mpr (List.mem_enum_iff_getElem?.mpr hj)
    · intro w hw
      have h2 := List.mem_enum_iff_getElem?.mp (hperm.mem_iff.mp hw)
      rw [hj] at h2
      exact (Option.some.inj h2).symm
  | none =>
    apply lookup_eq_none_of
    intro v hv
    have h2 := List.mem_enum_iff_getElem?.mp (hperm.mem_iff.mp hv)
    rw [hj] at h2
    exact Option.noConfusion h2

theorem promiseAllJoinFrom_eq (σ : List (Nat × List Nat)) :
    ∀ (tl : List (List Nat)) (i : Nat),
      (∀ j, σ.lookup (i + j) = tl[j]?) →
      promiseAllJoinFrom σ tl.length i = some tl
  | [], i, H => rfl
  | v :: tl, i, H => by
    have h0 : σ.lookup i = some v := by simpa using H 0
    have ih := promiseAllJoinFrom_eq σ tl (i + 1) (fun j => by
      have hj := H (j + 1)
      rw [show i + (j + 1) = i + 1 + j by omega] at hj
      simpa using hj)
    simp [List.length_cons, promiseAllJoinFrom, h0, ih]

theorem mapM_opt_length {α β : Type} (f : α → Option β) :
    ∀ (l : List α) (r : List β), l.mapM f = some r → r.length = l.length
  | [], r, h => by
    rw [List.mapM_nil] at h
    cases h
    rfl
  | a :: l, r, h => by
    rw [List.mapM_cons] at h
    cases hfa : f a with
    | none =>
      rw [hfa] at h
      simp at h
    | some b =>
      rw [hfa] at h
      cases hml : l.mapM f with
      | none =>
        rw [hml] at h
        simp at h
      | some bs =>
        rw [hml] at h
        simp at h
        rw [← h]
        simp [mapM_opt_length f l bs hml]

/-- Under any valid completion schedule, the scheduled run of
`extractFromItems` equals the canonical run. -/
theorem extractFromItemsSched_eq (items : List Item) (σ : List (Nat × List Nat))
    (ps : List (List Nat)) (hps : payloads items = some ps)
    (hperm : σ.Perm ps.enum) :
    extractFromItemsSched items σ = extractFromItems items := by
  have hlen : ps.length = (textItems items).length := mapM_opt_length _ _ _ hps
  have hjoin : promiseAllJoinFrom σ (textItems items).length 0 = some ps := by
    rw [← hlen]
    exact promiseAllJoinFrom_eq σ ps 0 (fun j => by
      simpa using lookup_of_perm_enum ps σ hperm j)
  unfold extractFromItemsSched extractFromItems
  rw [hjoin, hps]

/-- Selection by declared type and original order: the first entry of the
given type whose resolved string is non-empty. -/
def firstResolved (items : List Item) (ty : List Nat) : Option (List Nat) :=
  (payloads items).bind (fun ps =>
    ((textsOfStrs items ps).find? (fun t => t.1 == ty && !t.2.isEmpty)).map (fun t => t.2))

/-- Claim C6: for a fixed ItemList of string entries, any two runs whose
`getAsString` retrievals complete in different orders (any two permutations
of the deliveries) produce the same result as each other and as the
canonical run; the `html` field is always the first `text/html` entry's
non-empty resolved string (in original entry order) and the `text` field the
first such `text/plain` entry's, independent of completion order. -/
theorem getPastedData_schedule_invariant (items : List Item)
    (g : Option (List Nat → Except Unit (List Nat)))
    (σ₁ σ₂ : List (Nat × List Nat)) (ps : List (List Nat))
    (hstr : ∀ it ∈ items, it.kind = ItemKind.str)
    (hps : payloads items = some ps)
    (hp1 : σ₁.Perm ps.enum) (hp2 : σ₂.Perm ps.enum) :
    getPastedDataSched ⟨some ⟨items, g⟩, none⟩ σ₁ = getPastedData ⟨some ⟨items, g⟩, none⟩
    ∧ getPastedDataSched ⟨some ⟨items, g⟩, none⟩ σ₁
        = getPastedDataSched ⟨some ⟨items, g⟩, none⟩ σ₂
    ∧ (∀ s, firstResolved items (bytes "text/html") = some s →
        ∃ r, getPastedData ⟨some ⟨items, g⟩, none⟩ = some r ∧ r.html = some s)
    ∧ (∀ s, firstResolved items (bytes "text/plain") = some s →
        ∃ r, getPastedData ⟨some ⟨items, g⟩, none⟩ = some r ∧ r.text = some s) := by
  have e1 := extractFromItemsSched_eq items σ₁ ps hps hp1
  have e2 := extractFromItemsSched_eq items σ₂ ps hps hp2
  have hsched1 : getPastedDataSched ⟨some ⟨items, g⟩, none⟩ σ₁
      = getPastedData ⟨some ⟨items, g⟩, none⟩ := by
    unfold getPastedDataSched getPastedData getPastedDataCore jsOr
    dsimp only []
    rw [e1]
  have hsched2 : getPastedDataSched ⟨some ⟨items, g⟩, none⟩ σ₂
      = getPastedData ⟨some ⟨items, g⟩, none⟩ := by
    unfold getPastedDataSched getPastedData getPastedDataCore jsOr
    dsimp only []
    rw [e2]
  refine ⟨hsched1, hsched1.trans hsched2.symm, ?_, ?_⟩
  · intro s hs
    rw [firstResolved, hps] at hs
    simp only [Option.some_bind] at hs
    obtain ⟨t, hfind, hst⟩ := Option.map_eq_some'.mp hs
    have hne : items ≠ [] := by
      intro he
      subst he
      simp [textsOfStrs, textItems, List.filter] at hfind
    have hcan : canUseItems items = true := by
      cases items with
      | nil => exact absurd rfl hne
      | cons a l => rfl
    have hr : extractFromItems items
        = some (finishFromTexts items (textsOfStrs items ps)) := by
      unfold extractFromItems
      rw [hps]
      rfl
    have hhtml : (finishFromTexts items (textsOfStrs items ps)).html = some s := by
      unfold finishFromTexts
      dsimp only []
      rw [hfind]
      simp [hst]
    refine ⟨finishFromTexts items (textsOfStrs items ps), ?_, hhtml⟩
    exact getPastedData_items_some items g _ hcan hr (by simp [hhtml])
  · intro s hs
    rw [firstResolved, hps] at hs
    simp only [Option.some_bind] at hs
    obtain ⟨t, hfind, hst⟩ := Option.map_eq_some'.mp hs
    have hne : items ≠ [] := by
      intro he
      subst he
      simp [textsOfStrs, textItems, List.filter] at hfind
    have hcan : canUseItems items = true := by
      cases items with
      | nil => exact absurd rfl hne
      | cons a l => rfl
    have hr : extractFromItems items
        = some (finishFromTexts items (textsOfStrs items ps)) := by
      unfold extractFromItems
      rw [hps]
      rfl
    have htext : (finishFromTexts items (textsOfStrs items ps)).text = some s := by
      unfold finishFromTexts
      dsimp only []
      rw [hfind]
      simp [hst]
    refine ⟨finishFromTexts items (textsOfStrs items ps), ?_, htext⟩
    exact getPastedData_items_some items g _ hcan hr (by simp [htext])

/-- Fixed ItemList of string entries for the C6 witness. -/
def orderTestItems : List Item :=
  [⟨ItemKind.str, bytes "text/html", none, some (bytes "<div><p>hi</p></div>")⟩,
   ⟨ItemKind.str, bytes "text/plain", none, some (bytes "Plain text")⟩]

theorem getPastedData_schedule_invariant_witness :
    getPastedDataSched ⟨some ⟨orderTestItems, none⟩, none⟩
        [(0, bytes "<div><p>hi</p></div>"), (1, bytes "Plain text")]
      = getPastedDataSched ⟨some ⟨orderTestItems, none⟩, none⟩
        [(1, bytes "Plain text"), (0, bytes "<div><p>hi</p></div>")]
    ∧ (∃ r, getPastedData ⟨some ⟨orderTestItems, none⟩, none⟩ = some r
        ∧ r.html = some (bytes "<div><p>hi</p></div>")) := by
  have h := getPastedData_schedule_invariant orderTestItems none
    [(0, bytes "<div><p>hi</p></div>"), (1, bytes "Plain text")]
    [(1, bytes "Plain text"), (0, bytes "<div><p>hi</p></div>")]
    [bytes "<div><p>hi</p></div>", bytes "Plain text"]
    (by decide) rfl (by decide) (by decide)
  exact ⟨h.2.1, h.2.2.1 (bytes "<div><p>hi</p></div>") rfl⟩
